import Mathlib

/-!
Verification of the direct-chunk demo programs
(`direct_chunk_writer.c`, the deflate variant, and
`direct_chunk_mt_fill.c`, the raw variant) against their
natural-language specification.

The two C programs are shallowly embedded below.  Pure C computations
become Lean functions on `Nat`/`Int` (machine conversions are made
explicit: `toCInt` is the conversion of an unsigned 64-bit value to a
32-bit two's-complement `int`).  The HDF5 storage layer
(`H5Dset_extent`, `H5Dwrite_chunk`, chunk lookup) is not part of the
repository's sources, so it is modelled from the spec's contracts
(sections 4.1 and 4.2); those definitions carry a
`Modelled from the spec:` doc comment.  zlib is likewise external and is
modelled from the spec's codec contract (section 4.3) as a `Codec`
structure carrying the lossless round-trip law and the worst-case
output-size bound.
-/

namespace DirectChunk

/-- `const hsize_t CHUNK_SIZE = 10` (both variants). -/
def CHUNK_SIZE : Nat := 10

/-- `const unsigned COMPRESSION_LEVEL = 5` (`direct_chunk_writer.c`). -/
def COMPRESSION_LEVEL : Nat := 5

/-- `const int FILL_VALUE = -1` (both variants). -/
def FILL_VALUE : Int := -1

/-- `sizeof(int)` on the platforms the demo targets (32-bit `int`). -/
def sizeofInt : Nat := 4

/-- `INT_MAX` for a 32-bit `int`. -/
def INT_MAX : Int := 2147483647

/-- `buf_size = CHUNK_SIZE * sizeof(int)` — the raw byte budget of one
chunk (40 bytes). -/
def bufSize : Nat := CHUNK_SIZE * sizeofInt

/-- `buf_out_size = (size_t)ceil(buf_size * 1.001) + 12`
(`direct_chunk_writer.c` line 155).  The double computation is exact at
this operand, so the integer ceiling formula below models it faithfully. -/
def bufOutSize : Nat := (bufSize * 1001 + 999) / 1000 + 12

/-- `2^64`: the modulus of `hsize_t`/`uint64_t` arithmetic, in which
`main` computes `write_offset = n_chunks * CHUNK_SIZE` and
`new_size = (n_chunks + 1) * CHUNK_SIZE`. -/
def UINT64_MOD : Nat := 18446744073709551616

/-- Conversion of an unsigned 64-bit value (`hsize_t`) to a
two's-complement 32-bit C `int`, as performed by
`value = (int)(offset / CHUNK_SIZE)` in both variants. -/
def toCInt (n : Nat) : Int :=
  if n % 4294967296 < 2147483648 then ((n % 4294967296 : Nat) : Int)
  else ((n % 4294967296 : Nat) : Int) - 4294967296

/-- Little-endian byte image of one C `int` value, as it sits in the
`int *buf` chunk buffer. -/
def intToBytes (v : Int) : List Nat :=
  let u := (v % 4294967296).toNat
  [u % 256, u / 256 % 256, u / 65536 % 256, u / 16777216 % 256]

/-- Byte image of an `int` array (the raw chunk buffer). -/
def encodeInts (l : List Int) : List Nat :=
  (l.map intToBytes).flatten

/-- Reassemble one C `int` from four little-endian bytes. -/
def byteDecode (b0 b1 b2 b3 : Nat) : Int :=
  toCInt (b0 + 256 * b1 + 65536 * b2 + 16777216 * b3)

/-- Decode a byte sequence back into the `int` array a reader of the
`H5T_NATIVE_INT` dataset would see. -/
def decodeInts : List Nat → List Int
  | b0 :: b1 :: b2 :: b3 :: rest => byteDecode b0 b1 b2 b3 :: decodeInts rest
  | _ => []

/-- Error outcomes of the embedded operations.  `ShrinkNotAllowed` is
the spec's name for a rejected extension; `TooManyChunks`, `ZBufError`
and `PayloadTooLarge` are the three `goto badness` branches of
`direct_write` in `direct_chunk_writer.c` (lines 161, 179 and 195). -/
inductive Err where
  | ShrinkNotAllowed
  | TooManyChunks
  | ZBufError
  | PayloadTooLarge
  deriving DecidableEq

/-- Modelled from the spec: the dataset state of sections 3 and 4.2 —
the current logical length (elements) together with the chunk index,
mapping a chunk-aligned offset to the stored encoded payload and filter
mask.  The HDF5 store that realizes this is not in `src/`. -/
@[ext]
structure Dataset where
  logical_length : Nat
  chunks : Nat → Option (List Nat × Nat)

/-- The dataset as `setup()` leaves it: current dimension 0, no chunk
written. -/
def initDataset : Dataset :=
  { logical_length := 0, chunks := fun _ => none }

/-- Modelled from the spec: the Chunk Index `upsert` of section 4.2
(inserts or replaces the entry keyed by offset), which is what a
successful `H5Dwrite_chunk` call performs; `H5Dwrite_chunk` itself is
not in `src/`. -/
def upsert (d : Dataset) (offset : Nat) (payload : List Nat) (mask : Nat) : Dataset :=
  { d with chunks := fun o => if o = offset then some (payload, mask) else d.chunks o }

/-- Modelled from the spec: the Chunk Index `lookup` of section 4.2. -/
def lookup (d : Dataset) (offset : Nat) : Option (List Nat × Nat) :=
  d.chunks offset

/-- Modelled from the spec: `extend_dataset` (both variants, lines
124–137 resp. 120–133) forwards to `H5Dset_extent`, which is not in
`src/`; its semantics here are the spec's `extend` contract of section
4.1 — reject shrinking with `ShrinkNotAllowed`, otherwise update the
logical length.  Failure returns no new state: the dataset is untouched. -/
def extend_dataset (d : Dataset) (size : Nat) : Except Err Dataset :=
  if size < d.logical_length then Except.error Err.ShrinkNotAllowed
  else Except.ok { d with logical_length := size }

/-- Modelled from the spec: the caller-side codec contract of sections
4.3 and 6 (zlib's `compress2`/`uncompress` are not in `src/`): a
lossless transform whose worst-case output size is
`ceil(len * 1.001) + 12`. -/
structure Codec where
  compress : List Nat → List Nat
  decompress : List Nat → List Nat
  round_trip : ∀ bs, decompress (compress bs) = bs
  boundOut : ∀ bs, (compress bs).length ≤ (bs.length * 1001 + 999) / 1000 + 12

/-- The identity transform satisfies the spec's codec contract; it
serves as a concrete codec for evaluating the embedded programs. -/
def idCodec : Codec where
  compress := fun bs => bs
  decompress := fun bs => bs
  round_trip := fun _ => rfl
  boundOut := fun bs => by
    show bs.length ≤ (bs.length * 1001 + 999) / 1000 + 12
    omega

/-- The raw byte payload the synthetic fill produces for chunk number
`k`: `CHUNK_SIZE` copies of `value = (int)k`. -/
def rawPayload (k : Nat) : List Nat :=
  encodeInts (List.replicate CHUNK_SIZE (toCInt k))

namespace MtFill

/-- `direct_write` of `direct_chunk_mt_fill.c` (lines 135–169): fill the
chunk buffer with the chunk number and hand the raw bytes to
`H5Dwrite_chunk` with `data_size = buf_size` and `filter_mask = 0`.
`malloc` failure is not modelled (allocation is assumed to succeed). -/
def direct_write (offset : Nat) (d : Dataset) : Except Err Dataset :=
  let value := toCInt (offset / CHUNK_SIZE)
  if INT_MAX < value then Except.error Err.TooManyChunks
  else Except.ok (upsert d offset (encodeInts (List.replicate CHUNK_SIZE value)) 0)

/-- One iteration of `main`'s production loop (lines 209–221): extend to
`new_size = (n_chunks + 1) * CHUNK_SIZE`, then direct-write at
`write_offset = n_chunks * CHUNK_SIZE`, both products computed in
`hsize_t`, i.e. mod `2^64`.  `n` is the iteration count; since
multiplication respects congruence mod `2^64`, reducing the products of
the unbounded count mod `2^64` equals using the wrapped `uint64_t`
`n_chunks` itself. -/
def cycle (n : Nat) (d : Dataset) : Except Err Dataset :=
  (extend_dataset d ((n + 1) * CHUNK_SIZE % UINT64_MOD)).bind
    (direct_write (n * CHUNK_SIZE % UINT64_MOD))

end MtFill

namespace Writer

/-- `direct_write` of `direct_chunk_writer.c` (lines 139–214): fill the
chunk buffer with the chunk number, deflate it with `compress2` into the
`calloc`'d `buf_out` of `buf_out_size` bytes, reject `Z_BUF_ERROR`
(compressed output would not fit `buf_out_size`) and compressed sizes
exceeding `buf_size`, then call `H5Dwrite_chunk` with
`data_size = buf_out_size` — the WHOLE output buffer, compressed bytes
followed by the remaining `calloc` zeros — and `filter_mask = 0`.
`malloc`/`calloc` and `Z_MEM_ERROR` failures are not modelled. -/
def direct_write (c : Codec) (offset : Nat) (d : Dataset) : Except Err Dataset :=
  let value := toCInt (offset / CHUNK_SIZE)
  if INT_MAX < value then Except.error Err.TooManyChunks
  else
    let z_source := encodeInts (List.replicate CHUNK_SIZE value)
    let z_out := c.compress z_source
    if bufOutSize < z_out.length then Except.error Err.ZBufError
    else if bufSize < z_out.length then Except.error Err.PayloadTooLarge
    else
      Except.ok
        (upsert d offset (z_out ++ List.replicate (bufOutSize - z_out.length) 0) 0)

/-- One iteration of `main`'s production loop (lines 253–266): extend to
`new_size = (n_chunks + 1) * CHUNK_SIZE`, then direct-write at
`write_offset = n_chunks * CHUNK_SIZE`, both products computed in
`hsize_t`, i.e. mod `2^64`, exactly as in the raw variant's loop. -/
def cycle (c : Codec) (n : Nat) (d : Dataset) : Except Err Dataset :=
  (extend_dataset d ((n + 1) * CHUNK_SIZE % UINT64_MOD)).bind
    (direct_write c (n * CHUNK_SIZE % UINT64_MOD))

end Writer

/-- The chunk payload the deflate variant actually stores for chunk `k`:
the compressed bytes padded with the output buffer's remaining
`calloc` zeros up to `buf_out_size`. -/
def deflatePayload (c : Codec) (k : Nat) : List Nat :=
  c.compress (rawPayload k) ++
    List.replicate (bufOutSize - (c.compress (rawPayload k)).length) 0

/-- Closed form of the dataset after `N` complete production cycles
whose cycle `k` stores payload `p k`: logical length `N*CHUNK_SIZE` and
an index entry with filter mask 0 at every chunk-aligned offset below
it. -/
def datasetAfter (p : Nat → List Nat) (N : Nat) : Dataset where
  logical_length := N * CHUNK_SIZE
  chunks := fun o =>
    if o % CHUNK_SIZE = 0 ∧ o < N * CHUNK_SIZE then some (p (o / CHUNK_SIZE), 0)
    else none

/-- `N` iterations of the production loop, starting from the dataset
`setup()` created, with `step n` the body of iteration `n`. -/
def runCycles (step : Nat → Dataset → Except Err Dataset) : Nat → Except Err Dataset
  | 0 => Except.ok initDataset
  | n + 1 => (runCycles step n).bind (step n)

/-- Iterations `n, n+1, ..., n+N-1` of the production loop from state
`d`. -/
def runFrom (step : Nat → Dataset → Except Err Dataset) : Nat → Nat → Dataset → Except Err Dataset
  | _, 0, d => Except.ok d
  | n, N + 1, d => (step n d).bind (runFrom step (n + 1) N)

/-- The production loop of `main` (both variants, lines 246–269 resp.
201–224): the `stop` flag set by the SIGINT handler is read only by the
`while (!stop)` test at the top of each cycle — `direct_write` itself
never consults it — so `stopAt n` is the value the test observes before
cycle `n`.  `fuel` bounds the number of loop tests so the model is a
total function. -/
def loopFuel (step : Nat → Dataset → Except Err Dataset) (stopAt : Nat → Bool) :
    Nat → Nat → Dataset → Except Err Dataset
  | 0, _, d => Except.ok d
  | fuel + 1, n, d =>
    if stopAt n then Except.ok d
    else (step n d).bind (loopFuel step stopAt fuel (n + 1))

/-! Helper lemmas about the embedded machine arithmetic and byte codec. -/

theorem toCInt_lt (n : Nat) : toCInt n < 2147483648 := by
  unfold toCInt
  split <;> omega

theorem neg_le_toCInt (n : Nat) : -2147483648 ≤ toCInt n := by
  unfold toCInt
  split <;> omega

theorem toCInt_le_INT_MAX (n : Nat) : toCInt n ≤ INT_MAX := by
  have := toCInt_lt n
  unfold INT_MAX
  omega

theorem toCInt_of_lt {n : Nat} (h : n < 2147483648) : toCInt n = (n : Int) := by
  unfold toCInt
  split <;> omega

theorem toCInt_ne_of_ge {q : Nat} (h : 2147483648 ≤ q) : toCInt q ≠ (q : Int) := by
  have := toCInt_lt q
  intro heq
  omega

theorem decodeInts_intToBytes_append (v : Int) (h1 : -2147483648 ≤ v)
    (h2 : v < 2147483648) (rest : List Nat) :
    decodeInts (intToBytes v ++ rest) = v :: decodeInts rest := by
  unfold intToBytes
  simp only [List.cons_append, List.nil_append, decodeInts]
  have hb : byteDecode ((v % 4294967296).toNat % 256) ((v % 4294967296).toNat / 256 % 256)
      ((v % 4294967296).toNat / 65536 % 256) ((v % 4294967296).toNat / 16777216 % 256) = v := by
    unfold byteDecode toCInt
    split <;> omega
  rw [hb]
  rfl

theorem decodeInts_encodeInts (l : List Int)
    (h : ∀ v ∈ l, -2147483648 ≤ v ∧ v < 2147483648) :
    decodeInts (encodeInts l) = l := by
  induction l with
  | nil => rfl
  | cons v t ih =>
    have hv := h v (List.mem_cons_self v t)
    have ht : decodeInts (encodeInts t) = t :=
      ih (fun w hw => h w (List.mem_cons_of_mem v hw))
    simp only [encodeInts, List.map_cons, List.flatten_cons]
    rw [decodeInts_intToBytes_append v hv.1 hv.2]
    simpa [encodeInts] using ht

theorem encodeInts_length (l : List Int) : (encodeInts l).length = 4 * l.length := by
  induction l with
  | nil => rfl
  | cons v t ih =>
    simp only [encodeInts, List.map_cons, List.flatten_cons, List.length_append,
      List.length_cons] at ih ⊢
    have : (intToBytes v).length = 4 := rfl
    omega

theorem rawPayload_length (k : Nat) : (rawPayload k).length = bufSize := by
  simp [rawPayload, encodeInts_length, bufSize, CHUNK_SIZE, sizeofInt]

theorem decodeInts_rawPayload {k : Nat} (h : k < 2147483648) :
    decodeInts (rawPayload k) = List.replicate CHUNK_SIZE (k : Int) := by
  unfold rawPayload
  rw [toCInt_of_lt h]
  rw [decodeInts_encodeInts]
  intro v hv
  rw [List.eq_of_mem_replicate hv]
  constructor <;> omega

/-! Closed-form characterization of the production loop's state. -/

theorem datasetAfter_zero (p : Nat → List Nat) : datasetAfter p 0 = initDataset := by
  apply Dataset.ext
  · simp [datasetAfter, initDataset]
  · funext o
    simp [datasetAfter, initDataset]

theorem upsert_datasetAfter (p : Nat → List Nat) (N : Nat) :
    upsert { logical_length := (N + 1) * CHUNK_SIZE, chunks := (datasetAfter p N).chunks }
      (N * CHUNK_SIZE) (p N) 0 = datasetAfter p (N + 1) := by
  unfold upsert datasetAfter
  congr 1
  funext o
  by_cases h : o = N * CHUNK_SIZE
  · subst h
    have h1 : N * CHUNK_SIZE % CHUNK_SIZE = 0 := Nat.mul_mod_left N CHUNK_SIZE
    have h2 : N * CHUNK_SIZE < (N + 1) * CHUNK_SIZE := by
      simp only [CHUNK_SIZE]; omega
    have h3 : N * CHUNK_SIZE / CHUNK_SIZE = N := by
      simp only [CHUNK_SIZE]; omega
    simp [h1, h2, h3]
  · rw [if_neg h]
    have hiff : (o % CHUNK_SIZE = 0 ∧ o < N * CHUNK_SIZE) ↔
        (o % CHUNK_SIZE = 0 ∧ o < (N + 1) * CHUNK_SIZE) := by
      simp only [CHUNK_SIZE] at h ⊢
      omega
    exact if_congr hiff rfl rfl

theorem extend_dataset_datasetAfter (p : Nat → List Nat) (N : Nat) :
    extend_dataset (datasetAfter p N) ((N + 1) * CHUNK_SIZE) =
      Except.ok { logical_length := (N + 1) * CHUNK_SIZE,
                  chunks := (datasetAfter p N).chunks } := by
  unfold extend_dataset
  rw [if_neg]
  show ¬ (N + 1) * CHUNK_SIZE < (datasetAfter p N).logical_length
  show ¬ (N + 1) * CHUNK_SIZE < N * CHUNK_SIZE
  simp only [CHUNK_SIZE]
  omega

theorem mul_div_chunk (N : Nat) : N * CHUNK_SIZE / CHUNK_SIZE = N := by
  simp only [CHUNK_SIZE]
  omega

theorem runCycles_mtfill (N : Nat) (hN : N * CHUNK_SIZE < UINT64_MOD) :
    runCycles MtFill.cycle N = Except.ok (datasetAfter rawPayload N) := by
  revert hN
  induction N with
  | zero => intro _; rw [runCycles, datasetAfter_zero]
  | succ N ih =>
    intro hN
    have hlt : N * CHUNK_SIZE < UINT64_MOD := by
      simp only [CHUNK_SIZE, UINT64_MOD] at hN ⊢
      omega
    have hoff : N * CHUNK_SIZE % UINT64_MOD = N * CHUNK_SIZE := Nat.mod_eq_of_lt hlt
    rw [runCycles, ih hlt]
    show MtFill.cycle N (datasetAfter rawPayload N) = _
    unfold MtFill.cycle
    rw [Nat.mod_eq_of_lt hN, hoff]
    rw [extend_dataset_datasetAfter]
    show MtFill.direct_write (N * CHUNK_SIZE) _ = _
    unfold MtFill.direct_write
    rw [mul_div_chunk, if_neg (not_lt.mpr (toCInt_le_INT_MAX N))]
    exact congrArg Except.ok (upsert_datasetAfter rawPayload N)

theorem runCycles_writer (c : Codec)
    (Hle : ∀ k, (c.compress (rawPayload k)).length ≤ bufSize) (N : Nat)
    (hN : N * CHUNK_SIZE < UINT64_MOD) :
    runCycles (Writer.cycle c) N = Except.ok (datasetAfter (deflatePayload c) N) := by
  revert hN
  induction N with
  | zero => intro _; rw [runCycles, datasetAfter_zero]
  | succ N ih =>
    intro hN
    have hlt : N * CHUNK_SIZE < UINT64_MOD := by
      simp only [CHUNK_SIZE, UINT64_MOD] at hN ⊢
      omega
    have hoff : N * CHUNK_SIZE % UINT64_MOD = N * CHUNK_SIZE := Nat.mod_eq_of_lt hlt
    rw [runCycles, ih hlt]
    show Writer.cycle c N (datasetAfter (deflatePayload c) N) = _
    unfold Writer.cycle
    rw [Nat.mod_eq_of_lt hN, hoff]
    rw [extend_dataset_datasetAfter]
    show Writer.direct_write c (N * CHUNK_SIZE) _ = _
    unfold Writer.direct_write
    rw [mul_div_chunk, if_neg (not_lt.mpr (toCInt_le_INT_MAX N))]
    have hle : (c.compress (rawPayload N)).length ≤ bufSize := Hle N
    have hbs : bufSize ≤ bufOutSize := by
      simp only [bufSize, bufOutSize, CHUNK_SIZE, sizeofInt]
      omega
    rw [if_neg (by rw [show encodeInts (List.replicate CHUNK_SIZE (toCInt N)) = rawPayload N from rfl]; omega)]
    rw [if_neg (by rw [show encodeInts (List.replicate CHUNK_SIZE (toCInt N)) = rawPayload N from rfl]; omega)]
    exact congrArg Except.ok (upsert_datasetAfter (deflatePayload c) N)

/-- At iteration `1844674407370955161` the machine extent target
`(n_chunks + 1) * CHUNK_SIZE` wraps mod `2^64` to `4`, which is below the
current logical length `n_chunks * CHUNK_SIZE = 18446744073709551610`, so
the extend is rejected. -/
theorem extend_wrap_fails (d : Dataset)
    (hd : d.logical_length = 1844674407370955161 * CHUNK_SIZE) :
    extend_dataset d ((1844674407370955161 + 1) * CHUNK_SIZE % UINT64_MOD) =
      Except.error Err.ShrinkNotAllowed := by
  unfold extend_dataset
  rw [if_pos (by rw [hd]; decide)]

/-! Lemmas relating the cancellable loop to whole-cycle runs. -/

theorem runFrom_succ (step : Nat → Dataset → Except Err Dataset) (N : Nat) :
    ∀ (n : Nat) (d : Dataset),
      runFrom step n (N + 1) d = (runFrom step n N d).bind (step (n + N)) := by
  induction N with
  | zero =>
    intro n d
    show (step n d).bind (runFrom step (n + 1) 0) = (Except.ok d).bind (step (n + 0))
    have hr : (Except.ok d).bind (step (n + 0)) = step n d := rfl
    rw [hr]
    cases step n d <;> rfl
  | succ N ih =>
    intro n d
    show (step n d).bind (runFrom step (n + 1) (N + 1)) = _
    cases hstep : step n d with
    | error e =>
      show Except.error e = (runFrom step n (N + 1) d).bind (step (n + (N + 1)))
      rw [runFrom, hstep]
      rfl
    | ok d' =>
      show runFrom step (n + 1) (N + 1) d' = (runFrom step n (N + 1) d).bind (step (n + (N + 1)))
      rw [ih (n + 1) d', runFrom, hstep]
      show _ = (runFrom step (n + 1) N d').bind (step (n + (N + 1)))
      rw [show n + 1 + N = n + (N + 1) by omega]

theorem runCycles_eq_runFrom (step : Nat → Dataset → Except Err Dataset) (N : Nat) :
    runCycles step N = runFrom step 0 N initDataset := by
  induction N with
  | zero => rfl
  | succ N ih =>
    rw [runCycles, ih, runFrom_succ]
    rw [show 0 + N = N by omega]

theorem loopFuel_eq_runFrom (step : Nat → Dataset → Except Err Dataset)
    (stopAt : Nat → Bool) (N : Nat) :
    ∀ (fuel n : Nat) (d : Dataset),
      (∀ m, m < N → stopAt (n + m) = false) → stopAt (n + N) = true → N < fuel →
      loopFuel step stopAt fuel n d = runFrom step n N d := by
  induction N with
  | zero =>
    intro fuel n d _ hstop hfuel
    obtain ⟨f, rfl⟩ : ∃ f, fuel = f + 1 := ⟨fuel - 1, by omega⟩
    rw [loopFuel, if_pos (by simpa using hstop)]
    rfl
  | succ N ih =>
    intro fuel n d hrun hstop hfuel
    obtain ⟨f, rfl⟩ : ∃ f, fuel = f + 1 := ⟨fuel - 1, by omega⟩
    rw [loopFuel, if_neg (by simpa using hrun 0 (by omega))]
    show (step n d).bind (loopFuel step stopAt f (n + 1)) = (step n d).bind (runFrom step (n + 1) N)
    cases hstep : step n d with
    | error e => rfl
    | ok d' =>
      show loopFuel step stopAt f (n + 1) d' = runFrom step (n + 1) N d'
      exact ih f (n + 1) d'
        (fun m hm => by rw [show n + 1 + m = n + (m + 1) by omega]; exact hrun (m + 1) (by omega))
        (by rw [show n + 1 + N = n + (N + 1) by omega]; exact hstop)
        (by omega)

/-! Claim theorems. -/

/-- Claim C4: every chunk write issued by the production loop satisfies the
direct-write preconditions.  For every iteration `n` whose machine (`hsize_t`,
mod `2^64`) extent target does not wrap — the only iterations that can reach
the write — the offset `n*CHUNK_SIZE` is exactly chunk-aligned; the extend to
`(n+1)*CHUNK_SIZE` from the loop's state succeeds and yields that logical
length, after which `offset + CHUNK_SIZE` is within the logical length; the
write itself never changes the logical length (the engine never auto-extends
on write); and the write replaces the full payload at its offset whatever was
there before (no partial-chunk read-modify-write).  At the first iteration
whose extent product wraps (`n = 1844674407370955161`, where the machine
target is `4`), the extend fails with `ShrinkNotAllowed` before any write, so
no write with a violated precondition is ever issued. -/
theorem loop_write_preconditions (n : Nat) (hn : (n + 1) * CHUNK_SIZE < UINT64_MOD) :
    (n * CHUNK_SIZE % UINT64_MOD) % CHUNK_SIZE = 0
  ∧ extend_dataset (datasetAfter rawPayload n) ((n + 1) * CHUNK_SIZE % UINT64_MOD) =
      Except.ok { logical_length := (n + 1) * CHUNK_SIZE,
                  chunks := (datasetAfter rawPayload n).chunks }
  ∧ (n * CHUNK_SIZE % UINT64_MOD) + CHUNK_SIZE ≤ (n + 1) * CHUNK_SIZE
  ∧ (∀ d d' : Dataset, MtFill.direct_write (n * CHUNK_SIZE % UINT64_MOD) d = Except.ok d' →
      d'.logical_length = d.logical_length)
  ∧ (∀ (d : Dataset) (o : Nat) (p : List Nat) (m : Nat),
      (upsert d o p m).logical_length = d.logical_length ∧
      (upsert d o p m).chunks o = some (p, m))
  ∧ (∀ d : Dataset, d.logical_length = 1844674407370955161 * CHUNK_SIZE →
      MtFill.cycle 1844674407370955161 d = Except.error Err.ShrinkNotAllowed) := by
  have hoff : n * CHUNK_SIZE % UINT64_MOD = n * CHUNK_SIZE := by
    apply Nat.mod_eq_of_lt
    simp only [CHUNK_SIZE, UINT64_MOD] at hn ⊢
    omega
  have hext : (n + 1) * CHUNK_SIZE % UINT64_MOD = (n + 1) * CHUNK_SIZE :=
    Nat.mod_eq_of_lt hn
  refine ⟨?_, ?_, ?_, ?_, ?_, ?_⟩
  · rw [hoff]
    exact Nat.mul_mod_left n CHUNK_SIZE
  · rw [hext]
    exact extend_dataset_datasetAfter rawPayload n
  · rw [hoff]
    simp only [CHUNK_SIZE]
    omega
  · intro d d' h
    rw [hoff] at h
    unfold MtFill.direct_write at h
    rw [if_neg (not_lt.mpr (toCInt_le_INT_MAX _))] at h
    injection h with h
    subst h
    rfl
  · intro d o p m
    exact ⟨rfl, by simp [upsert]⟩
  · intro d hd
    unfold MtFill.cycle
    rw [extend_wrap_fails d hd]
    rfl

/-- Witness for C4 at cycle 0: the write of chunk 0 leaves the logical length
untouched. -/
theorem loop_write_preconditions_witness :
    (upsert initDataset 0 (rawPayload 0) 0).logical_length = initDataset.logical_length :=
  (loop_write_preconditions 0 (by decide)).2.2.2.1 initDataset
    (upsert initDataset 0 (rawPayload 0) 0) rfl

/-- Claim C5: `extend_dataset` with a new length strictly below the current
logical length fails with `ShrinkNotAllowed` (failure returns no new state,
so the logical length is untouched), and every successful extend leaves the
logical length no smaller: it is monotonically non-decreasing. -/
theorem extend_shrink_rejected_monotone (d : Dataset) (n : Nat) :
    (n < d.logical_length → extend_dataset d n = Except.error Err.ShrinkNotAllowed)
  ∧ (∀ d', extend_dataset d n = Except.ok d' → d.logical_length ≤ d'.logical_length) := by
  constructor
  · intro h
    unfold extend_dataset
    rw [if_pos h]
  · intro d' h
    unfold extend_dataset at h
    by_cases hc : n < d.logical_length
    · rw [if_pos hc] at h
      cases h
    · rw [if_neg hc] at h
      injection h with h
      subst h
      show d.logical_length ≤ n
      omega

/-- Witness for C5: shrinking 5 to 3 is rejected, and extending 5 to 7 yields
a length no smaller than 5. -/
theorem extend_shrink_rejected_monotone_witness :
    extend_dataset (Dataset.mk 5 (fun _ => none)) 3 = Except.error Err.ShrinkNotAllowed ∧
    (Dataset.mk 5 (fun _ => none)).logical_length ≤ (Dataset.mk 7 (fun _ => none)).logical_length :=
  ⟨(extend_shrink_rejected_monotone (Dataset.mk 5 (fun _ => none)) 3).1 (by decide),
   (extend_shrink_rejected_monotone (Dataset.mk 5 (fun _ => none)) 7).2
     (Dataset.mk 7 (fun _ => none)) rfl⟩

/-- Claim C6: `extend_dataset` is idempotent: extending to the current logical
length succeeds and returns the dataset unchanged, and repeating any
successful extend with the same length reproduces the same observable state. -/
theorem extend_idempotent_equal_length (d : Dataset) (n : Nat) :
    (n = d.logical_length → extend_dataset d n = Except.ok d)
  ∧ (∀ d', extend_dataset d n = Except.ok d' → extend_dataset d' n = Except.ok d') := by
  constructor
  · intro h
    subst h
    unfold extend_dataset
    rw [if_neg (by omega)]
  · intro d' h
    unfold extend_dataset at h ⊢
    by_cases hc : n < d.logical_length
    · rw [if_pos hc] at h
      cases h
    · rw [if_neg hc] at h
      injection h with h
      subst h
      rw [if_neg (by show ¬ n < n; omega)]

/-- Witness for C6: extending a length-5 dataset to 5 returns it unchanged,
and repeating the extend of 5 to 7 reproduces the extended state. -/
theorem extend_idempotent_equal_length_witness :
    extend_dataset (Dataset.mk 5 (fun _ => none)) 5 = Except.ok (Dataset.mk 5 (fun _ => none)) ∧
    extend_dataset (Dataset.mk 7 (fun _ => none)) 7 = Except.ok (Dataset.mk 7 (fun _ => none)) :=
  ⟨(extend_idempotent_equal_length (Dataset.mk 5 (fun _ => none)) 5).1 rfl,
   (extend_idempotent_equal_length (Dataset.mk 5 (fun _ => none)) 7).2
     (Dataset.mk 7 (fun _ => none)) rfl⟩

/-- Claim C8: the deflate output buffer is allocated with exactly
`ceil(buf_size * 1.001) + 12 = 53` bytes, and for any codec obeying the
standard worst-case deflate output bound the `Z_BUF_ERROR` branch of the
deflate variant's `direct_write` is unreachable for its
`chunk_size * sizeof(int)`-byte inputs. -/
theorem deflate_output_bound_no_overflow (c : Codec) (offset : Nat) (d : Dataset) :
    bufOutSize = Nat.ceil ((bufSize : ℚ) * 1.001) + 12
  ∧ bufOutSize = 53
  ∧ Writer.direct_write c offset d ≠ Except.error Err.ZBufError := by
  refine ⟨?_, rfl, ?_⟩
  · have hq : ((bufSize : ℚ)) * 1.001 = 1001 / 25 := by
      norm_num [bufSize, CHUNK_SIZE, sizeofInt]
    have h41 : Nat.ceil ((1001 : ℚ) / 25) = 41 := by
      rw [Nat.ceil_eq_iff (by norm_num)]
      constructor <;> norm_num
    rw [hq, h41]
    decide
  · intro heq
    unfold Writer.direct_write at heq
    by_cases h1 : INT_MAX < toCInt (offset / CHUNK_SIZE)
    · rw [if_pos h1] at heq
      simp at heq
    · rw [if_neg h1] at heq
      have hb := c.boundOut (encodeInts (List.replicate CHUNK_SIZE (toCInt (offset / CHUNK_SIZE))))
      rw [encodeInts_length] at hb
      simp only [List.length_replicate] at hb
      have hno : ¬ bufOutSize <
          (c.compress (encodeInts (List.replicate CHUNK_SIZE (toCInt (offset / CHUNK_SIZE))))).length := by
        simp only [bufOutSize, bufSize, CHUNK_SIZE, sizeofInt] at hb ⊢
        omega
      rw [if_neg hno] at heq
      by_cases h2 : bufSize <
          (c.compress (encodeInts (List.replicate CHUNK_SIZE (toCInt (offset / CHUNK_SIZE))))).length
      · rw [if_pos h2] at heq
        simp at heq
      · rw [if_neg h2] at heq
        simp at heq

/-- Witness for C8: the identity codec at chunk 0 never hits `Z_BUF_ERROR`. -/
theorem deflate_output_bound_no_overflow_witness :
    Writer.direct_write idCodec 0 initDataset ≠ Except.error Err.ZBufError :=
  (deflate_output_bound_no_overflow idCodec 0 initDataset).2.2

/-- Claim C10 (amended): in both variants the guard `value > INT_MAX` is dead
code — `value` is the already-cast `int`, so the comparison is always false
and the `TooManyChunks` branch is unreachable — and a chunk number strictly
beyond `INT_MAX` is silently truncated by the conversion to `int` rather than
rejected. -/
theorem chunk_guard_dead_code (offset : Nat) (d : Dataset) (c : Codec) :
    ¬ INT_MAX < toCInt (offset / CHUNK_SIZE)
  ∧ MtFill.direct_write offset d ≠ Except.error Err.TooManyChunks
  ∧ Writer.direct_write c offset d ≠ Except.error Err.TooManyChunks
  ∧ (∀ q : Nat, 2147483648 ≤ q → toCInt q ≠ (q : Int)) := by
  refine ⟨not_lt.mpr (toCInt_le_INT_MAX _), ?_, ?_, fun q hq => toCInt_ne_of_ge hq⟩
  · intro heq
    unfold MtFill.direct_write at heq
    rw [if_neg (not_lt.mpr (toCInt_le_INT_MAX _))] at heq
    simp at heq
  · intro heq
    unfold Writer.direct_write at heq
    rw [if_neg (not_lt.mpr (toCInt_le_INT_MAX _))] at heq
    by_cases h1 : bufOutSize <
        (c.compress (encodeInts (List.replicate CHUNK_SIZE (toCInt (offset / CHUNK_SIZE))))).length
    · rw [if_pos h1] at heq
      simp at heq
    · rw [if_neg h1] at heq
      by_cases h2 : bufSize <
          (c.compress (encodeInts (List.replicate CHUNK_SIZE (toCInt (offset / CHUNK_SIZE))))).length
      · rw [if_pos h2] at heq
        simp at heq
      · rw [if_neg h2] at heq
        simp at heq

/-- Witness for C10: the chunk number `2^31` is truncated by the `int` cast. -/
theorem chunk_guard_dead_code_witness :
    toCInt 2147483648 ≠ ((2147483648 : Nat) : Int) :=
  (chunk_guard_dead_code 0 initDataset idCodec).2.2.2 2147483648 (le_refl _)

/-- Claim C10 counterexample: at chunk number `INT_MAX` itself the conversion
to `int` is exact — the chunk is written with the correct value, neither
rejected nor truncated — refuting the claim's assertion that a chunk number
at `INT_MAX` is already truncated. -/
theorem int_max_chunk_not_truncated_cex :
    toCInt 2147483647 = ((2147483647 : Nat) : Int) ∧
    MtFill.direct_write (2147483647 * CHUNK_SIZE) initDataset =
      Except.ok (upsert initDataset (2147483647 * CHUNK_SIZE)
        (encodeInts (List.replicate CHUNK_SIZE ((2147483647 : Nat) : Int))) 0) := by
  constructor
  · decide
  · unfold MtFill.direct_write
    rw [mul_div_chunk, if_neg (not_lt.mpr (toCInt_le_INT_MAX _))]
    rw [show toCInt 2147483647 = ((2147483647 : Nat) : Int) from by decide]

/-- Claim C7: the stop flag is observed only between chunk cycles.  For any
stop schedule whose first observed-true test is before cycle `N` (within the
machine range where the loop's `hsize_t` products do not wrap), the loop's
observable result equals exactly `N` complete extend+write cycles — so the
in-progress cycle runs to completion, no new cycle begins after the stop is
observed, and every chunk the raw variant leaves published is a complete
`bufSize`-byte payload, never a torn one.  At the first cycle whose machine
extent product wraps mod `2^64` (`n = 1844674407370955161`), both variants
fail cleanly in the extend step with `ShrinkNotAllowed`, before any write:
even there the loop never leaves a torn chunk published. -/
theorem stop_observed_between_cycles (stopAt : Nat → Bool) (N fuel : Nat) (c : Codec)
    (hbefore : ∀ m, m < N → stopAt m = false) (hstop : stopAt N = true) (hfuel : N < fuel)
    (hN : N * CHUNK_SIZE < UINT64_MOD) :
    loopFuel MtFill.cycle stopAt fuel 0 initDataset = runCycles MtFill.cycle N
  ∧ loopFuel (Writer.cycle c) stopAt fuel 0 initDataset = runCycles (Writer.cycle c) N
  ∧ runCycles MtFill.cycle N = Except.ok (datasetAfter rawPayload N)
  ∧ (∀ o p m, (datasetAfter rawPayload N).chunks o = some (p, m) → p.length = bufSize)
  ∧ (∀ d : Dataset, d.logical_length = 1844674407370955161 * CHUNK_SIZE →
      MtFill.cycle 1844674407370955161 d = Except.error Err.ShrinkNotAllowed ∧
      Writer.cycle c 1844674407370955161 d = Except.error Err.ShrinkNotAllowed) := by
  have key : ∀ step, loopFuel step stopAt fuel 0 initDataset = runCycles step N := by
    intro step
    rw [runCycles_eq_runFrom]
    exact loopFuel_eq_runFrom step stopAt N fuel 0 initDataset
      (fun m hm => by simpa using hbefore m hm) (by simpa using hstop) hfuel
  refine ⟨key _, key _, runCycles_mtfill N hN, ?_, ?_⟩
  case refine_2 =>
    intro d hd
    constructor
    · unfold MtFill.cycle
      rw [extend_wrap_fails d hd]
      rfl
    · unfold Writer.cycle
      rw [extend_wrap_fails d hd]
      rfl
  intro o p m h
  have h' : (if o % CHUNK_SIZE = 0 ∧ o < N * CHUNK_SIZE
      then some (rawPayload (o / CHUNK_SIZE), 0) else none) = some (p, m) := h
  by_cases hc : o % CHUNK_SIZE = 0 ∧ o < N * CHUNK_SIZE
  · rw [if_pos hc] at h'
    injection h' with h'
    injection h' with h1 h2
    subst h1
    exact rawPayload_length _
  · rw [if_neg hc] at h'
    cases h'

/-- Witness for C7: with a stop flag first observed before cycle 2 and fuel 5,
the raw variant's loop performs exactly 2 complete cycles. -/
theorem stop_observed_between_cycles_witness :
    loopFuel MtFill.cycle (fun n => decide (2 ≤ n)) 5 0 initDataset =
      runCycles MtFill.cycle 2 :=
  (stop_observed_between_cycles (fun n => decide (2 ≤ n)) 2 5 idCodec
    (by intro m hm; simp only [decide_eq_false_iff_not]; omega) (by decide) (by omega)
    (by decide)).1

/-- Claim C1 (code-bug evidence): evaluated at the demo's chunk 0 with a
contract-conforming codec, the deflate variant's `direct_write` succeeds and
the chunk the storage layer receives is declared and stored with
`buf_out_size = 53` bytes — strictly more than the chunk's raw allocation
budget `bufSize = CHUNK_SIZE * sizeof(int) = 40` — because line 202 passes
`buf_out_size` instead of `z_destLen` to `H5Dwrite_chunk`. -/
theorem deflate_write_declares_oversized_payload :
    bufSize = CHUNK_SIZE * sizeofInt
  ∧ bufOutSize = 53
  ∧ bufSize = 40
  ∧ (∃ dw, Writer.direct_write idCodec 0 initDataset = Except.ok dw ∧
       dw.chunks 0 = some (List.replicate 53 0, 0)) := by
  refine ⟨rfl, rfl, rfl, ⟨_, rfl, ?_⟩⟩
  decide

/-- Claim C2 (code-bug evidence): at chunk 0 the deflate variant's stored
payload is the whole 53-byte output buffer — the `z_destLen` compressed bytes
followed by zero padding — not exactly the compressed bytes, while the raw
variant stores exactly its `bufSize` raw bytes with filter mask 0. -/
theorem deflate_roundtrip_padding_eval :
    (∃ dw, Writer.direct_write idCodec 0 initDataset = Except.ok dw ∧
       lookup dw 0 = some (deflatePayload idCodec 0, 0) ∧
       (deflatePayload idCodec 0).length = 53 ∧
       (idCodec.compress (rawPayload 0)).length = 40 ∧
       deflatePayload idCodec 0 ≠ idCodec.compress (rawPayload 0))
  ∧ (∃ dr, MtFill.direct_write 0 initDataset = Except.ok dr ∧
       lookup dr 0 = some (rawPayload 0, 0) ∧ (rawPayload 0).length = bufSize) := by
  constructor
  · refine ⟨_, rfl, by decide, by decide, by decide, by decide⟩
  · refine ⟨_, rfl, by decide, rawPayload_length 0⟩

/-- Claim C3 counterexample: after `2^31 + 1` iterations the loop still
succeeds, but chunk `2^31` was filled through the `int` cast, which wraps
`2^31` to `-2^31`, so that chunk does not decode to `CHUNK_SIZE` elements
equal to its chunk number. -/
theorem production_loop_truncation_cex :
    runCycles MtFill.cycle 2147483649 =
      Except.ok (datasetAfter rawPayload 2147483649)
  ∧ lookup (datasetAfter rawPayload 2147483649) (2147483648 * CHUNK_SIZE) =
      some (rawPayload 2147483648, 0)
  ∧ decodeInts (rawPayload 2147483648) ≠
      List.replicate CHUNK_SIZE ((2147483648 : Nat) : Int) := by
  refine ⟨runCycles_mtfill _ (by decide), ?_, ?_⟩
  · show (if 2147483648 * CHUNK_SIZE % CHUNK_SIZE = 0 ∧
        2147483648 * CHUNK_SIZE < 2147483649 * CHUNK_SIZE
        then some (rawPayload (2147483648 * CHUNK_SIZE / CHUNK_SIZE), 0) else none) =
      some (rawPayload 2147483648, 0)
    rw [if_pos ⟨Nat.mul_mod_left _ _, by simp only [CHUNK_SIZE]; omega⟩, mul_div_chunk]
  · decide

/-- Claim C3 (amended): for every `N ≤ 2^31` (all chunk numbers then fit the
`int` cast losslessly) and every `k < N`, after `N` production cycles both
variants expose a dataset of logical length `N*CHUNK_SIZE`; the raw variant's
chunk `k` decodes to `CHUNK_SIZE` elements equal to `k`; the deflate variant —
for a codec whose compressed output for these payloads fits the chunk budget,
everything else being rejected by the guard at line 195 — stores the
zero-padded compressed payload whose compressed prefix decodes to the same
all-`k` content. -/
theorem production_loop_contents (N k : Nat) (c : Codec)
    (hN : N ≤ 2147483648) (hk : k < N)
    (Hle : ∀ j, (c.compress (rawPayload j)).length ≤ bufSize) :
    runCycles MtFill.cycle N = Except.ok (datasetAfter rawPayload N)
  ∧ (datasetAfter rawPayload N).logical_length = N * CHUNK_SIZE
  ∧ lookup (datasetAfter rawPayload N) (k * CHUNK_SIZE) = some (rawPayload k, 0)
  ∧ decodeInts (rawPayload k) = List.replicate CHUNK_SIZE (k : Int)
  ∧ runCycles (Writer.cycle c) N = Except.ok (datasetAfter (deflatePayload c) N)
  ∧ (datasetAfter (deflatePayload c) N).logical_length = N * CHUNK_SIZE
  ∧ lookup (datasetAfter (deflatePayload c) N) (k * CHUNK_SIZE) =
      some (deflatePayload c k, 0)
  ∧ decodeInts (c.decompress ((deflatePayload c k).take
      (c.compress (rawPayload k)).length)) = List.replicate CHUNK_SIZE (k : Int) := by
  have hk31 : k < 2147483648 := by omega
  have hlk : ∀ p : Nat → List Nat,
      lookup (datasetAfter p N) (k * CHUNK_SIZE) = some (p k, 0) := by
    intro p
    show (if k * CHUNK_SIZE % CHUNK_SIZE = 0 ∧ k * CHUNK_SIZE < N * CHUNK_SIZE
        then some (p (k * CHUNK_SIZE / CHUNK_SIZE), 0) else none) = some (p k, 0)
    rw [if_pos ⟨Nat.mul_mod_left _ _, by simp only [CHUNK_SIZE]; omega⟩, mul_div_chunk]
  have hN64 : N * CHUNK_SIZE < UINT64_MOD := by
    simp only [CHUNK_SIZE, UINT64_MOD]
    omega
  refine ⟨runCycles_mtfill N hN64, rfl, hlk _, decodeInts_rawPayload hk31,
    runCycles_writer c Hle N hN64, rfl, hlk _, ?_⟩
  unfold deflatePayload
  rw [List.take_left, c.round_trip]
  exact decodeInts_rawPayload hk31

/-- Witness for C3 at `N = 2`, `k = 1` with the identity codec. -/
theorem production_loop_contents_witness :
    decodeInts (rawPayload 1) = List.replicate CHUNK_SIZE ((1 : Nat) : Int) :=
  (production_loop_contents 2 1 idCodec (by omega) (by omega)
    (fun j => le_of_eq (rawPayload_length j))).2.2.2.1

/-- Claim C9 counterexample: with the identity codec — which satisfies the
spec's codec contract — decoding the deflate variant's stored payload for
chunk 0 yields the 53 stored bytes, not the raw variant's 40-byte payload:
the stored chunk still carries the padding introduced by declaring
`buf_out_size` bytes to the storage layer. -/
theorem variants_padding_cex :
    (∃ dw, Writer.direct_write idCodec 0 initDataset = Except.ok dw ∧
       (lookup dw 0).map (fun e => idCodec.decompress e.1) = some (List.replicate 53 0))
  ∧ (∃ dr, MtFill.direct_write 0 initDataset = Except.ok dr ∧
       (lookup dr 0).map (fun e => e.1) = some (List.replicate 40 0))
  ∧ List.replicate 53 (0 : Nat) ≠ List.replicate 40 0 := by
  refine ⟨⟨_, rfl, by decide⟩, ⟨_, rfl, by decide⟩, by decide⟩

/-- Claim C9 (amended): for every contract-conforming codec whose output for
the synthetic payload fits the chunk budget and every chunk number below
`2^31`, the deflate variant stores `compress(rawPayload) ++ zero padding`;
decompressing its compressed prefix yields exactly the raw variant's stored
payload, so the two variants agree at the logical-content level once the
trailing padding bytes (the slip of passing `buf_out_size` instead of
`z_destLen`) are discarded. -/
theorem variants_equiv_modulo_padding (c : Codec) (n : Nat) (d : Dataset)
    (hn : n < 2147483648)
    (hfit : (c.compress (rawPayload n)).length ≤ bufSize) :
    (∃ dw, Writer.direct_write c (n * CHUNK_SIZE) d = Except.ok dw ∧
       lookup dw (n * CHUNK_SIZE) = some (deflatePayload c n, 0))
  ∧ (∃ dr, MtFill.direct_write (n * CHUNK_SIZE) d = Except.ok dr ∧
       lookup dr (n * CHUNK_SIZE) = some (rawPayload n, 0))
  ∧ c.decompress ((deflatePayload c n).take (c.compress (rawPayload n)).length) = rawPayload n
  ∧ decodeInts (rawPayload n) = List.replicate CHUNK_SIZE (n : Int) := by
  have hbs : bufSize ≤ bufOutSize := by
    simp only [bufSize, bufOutSize, CHUNK_SIZE, sizeofInt]
    omega
  refine ⟨?_, ?_, ?_, decodeInts_rawPayload hn⟩
  · refine ⟨upsert d (n * CHUNK_SIZE) (deflatePayload c n) 0, ?_, ?_⟩
    · unfold Writer.direct_write
      rw [mul_div_chunk, if_neg (not_lt.mpr (toCInt_le_INT_MAX _))]
      rw [if_neg (by rw [show encodeInts (List.replicate CHUNK_SIZE (toCInt n)) = rawPayload n from rfl]; omega)]
      rw [if_neg (by rw [show encodeInts (List.replicate CHUNK_SIZE (toCInt n)) = rawPayload n from rfl]; omega)]
      rfl
    · show (if n * CHUNK_SIZE = n * CHUNK_SIZE
          then some (deflatePayload c n, 0) else d.chunks (n * CHUNK_SIZE)) =
        some (deflatePayload c n, 0)
      rw [if_pos rfl]
  · refine ⟨upsert d (n * CHUNK_SIZE) (rawPayload n) 0, ?_, ?_⟩
    · unfold MtFill.direct_write
      rw [mul_div_chunk, if_neg (not_lt.mpr (toCInt_le_INT_MAX _))]
      rfl
    · show (if n * CHUNK_SIZE = n * CHUNK_SIZE
          then some (rawPayload n, 0) else d.chunks (n * CHUNK_SIZE)) =
        some (rawPayload n, 0)
      rw [if_pos rfl]
  · unfold deflatePayload
    rw [List.take_left, c.round_trip]

/-- Witness for C9 at chunk 0 with the identity codec. -/
theorem variants_equiv_modulo_padding_witness :
    idCodec.decompress ((deflatePayload idCodec 0).take
      (idCodec.compress (rawPayload 0)).length) = rawPayload 0 :=
  (variants_equiv_modulo_padding idCodec 0 initDataset (by omega)
    (le_of_eq (rawPayload_length 0))).2.2.1

end DirectChunk
